import Mathlib

/-!
# jwt-easy: a verification development

A shallow embedding of the `jwt-easy` token library (`src/lib.rs`) together
with proofs about its issuance (`create_jwt`) and verification (`verify_jwt`)
operations.

The repository's own source contains the `JwtOptions` configuration value with
its derived accessors and the two thin entry points `create_jwt` / `verify_jwt`.
The token pipeline those entry points delegate to (claim-set framing, compact
serialization, HMAC signing, and the verification state machine) lives in an
external crate whose source is not part of this repository; those parts are
modelled from the specification, following its step ordering and its treatment
of the HMAC primitive, the base64url codec and the JSON serializer as trusted,
already-correct collaborators.  Each such definition carries a
`Modelled from the spec:` doc comment.

Time is passed explicitly (unix seconds) where the real code reads a clock.
-/

namespace JwtEasy

/-- The claim payload: an arbitrary JSON value, modelled as the tagged union
the spec prescribes (object / array / string / number / bool / null).
Numbers are modelled as integers; the payload is opaque data that is only
round-tripped by the codec. -/
inductive Json where
  | null : Json
  | bool (b : Bool) : Json
  | num (n : Int) : Json
  | str (s : String) : Json
  | arr (elems : List Json) : Json
  | obj (fields : List (String × Json)) : Json

/-! ## A concrete injective, dot-free textual encoding

Modelled from the spec: the base64url codec and the JSON serializer are
excluded, trusted collaborators.  They are modelled jointly as a concrete
injective encoding of each structured segment into text over an alphabet
(decimal digits and a terminator) that is disjoint from the `.` separator,
together with a total decoder.  The only facts about them the development
uses are the ones the spec guarantees: the encoding is injective, produces
no `.` characters, and decoding an encoded value recovers it. -/

/-- The decimal digit `d` as a character (`0`–`9` for `d < 10`). -/
def digitChar (d : Nat) : Char := Char.ofNat (48 + d)

/-- Inverse of `digitChar` on decimal digits. -/
def charVal (c : Char) : Nat := c.toNat - 48

/-- Little-endian decimal digits of `n`, with explicit fuel so that the
definition is structurally recursive. -/
def natDigitsAux : Nat → Nat → List Nat
  | 0, _ => []
  | fuel + 1, n => if n = 0 then [] else n % 10 :: natDigitsAux fuel (n / 10)

/-- Little-endian decimal digits of `n` (empty for `0`). -/
def natDigits (n : Nat) : List Nat := natDigitsAux (n + 1) n

/-- Value of a little-endian decimal digit list. -/
def ofDigits : List Nat → Nat
  | [] => 0
  | d :: ds => d + 10 * ofDigits ds

/-- A natural number as a self-delimiting character run: its decimal digits
followed by the terminator `z`. -/
def encNat (n : Nat) : List Char := (natDigits n).map digitChar ++ ['z']

/-- Consume characters up to (and including) the first `z` terminator. -/
def takeUntilZ : List Char → Option (List Char × List Char)
  | [] => none
  | c :: rest =>
    if c = 'z' then some ([], rest)
    else
      match takeUntilZ rest with
      | none => none
      | some (ds, r) => some (c :: ds, r)

/-- Decode one self-delimiting natural number, returning the remainder. -/
def decNat (l : List Char) : Option (Nat × List Char) :=
  match takeUntilZ l with
  | none => none
  | some (ds, rest) => some (ofDigits (ds.map charVal), rest)

theorem natDigitsAux_lt (fuel : Nat) :
    ∀ n, ∀ d ∈ natDigitsAux fuel n, d < 10 := by
  induction fuel with
  | zero => intro n d hd; simp [natDigitsAux] at hd
  | succ k ih =>
    intro n d hd
    simp only [natDigitsAux] at hd
    split at hd
    · simp at hd
    · rcases List.mem_cons.1 hd with h | h
      · subst h; exact Nat.mod_lt _ (by omega)
      · exact ih _ d h

theorem natDigits_lt (n : Nat) : ∀ d ∈ natDigits n, d < 10 :=
  natDigitsAux_lt _ n

theorem ofDigits_natDigitsAux (fuel : Nat) :
    ∀ n, n < fuel → ofDigits (natDigitsAux fuel n) = n := by
  induction fuel with
  | zero => intro n h; omega
  | succ k ih =>
    intro n h
    simp only [natDigitsAux]
    by_cases h0 : n = 0
    · simp [h0, ofDigits]
    · rw [if_neg h0]
      simp only [ofDigits]
      rw [ih (n / 10) (by omega)]
      omega

theorem ofDigits_natDigits (n : Nat) : ofDigits (natDigits n) = n :=
  ofDigits_natDigitsAux _ n (Nat.lt_succ_self n)

theorem charVal_digitChar : ∀ d, d < 10 → charVal (digitChar d) = d := by decide

theorem digitChar_ne_z : ∀ d, d < 10 → digitChar d ≠ 'z' := by decide

theorem digitChar_ne_dot : ∀ d, d < 10 → digitChar d ≠ '.' := by decide

theorem takeUntilZ_append (ds rest : List Char) (h : ∀ c ∈ ds, c ≠ 'z') :
    takeUntilZ (ds ++ 'z' :: rest) = some (ds, rest) := by
  induction ds with
  | nil => simp [takeUntilZ]
  | cons c cs ih =>
    have hc : c ≠ 'z' := h c (List.mem_cons_self ..)
    simp only [List.cons_append, takeUntilZ, if_neg hc, List.append_eq]
    rw [ih (fun x hx => h x (List.mem_cons_of_mem _ hx))]

theorem decNat_encNat (n : Nat) (rest : List Char) :
    decNat (encNat n ++ rest) = some (n, rest) := by
  unfold decNat encNat
  rw [List.append_assoc, List.singleton_append,
    takeUntilZ_append _ _ (by
      intro c hc
      rcases List.mem_map.1 hc with ⟨d, hd, rfl⟩
      exact digitChar_ne_z d (natDigits_lt n d hd))]
  simp only [Option.some.injEq, Prod.mk.injEq, and_true]
  rw [List.map_map]
  have hmap : (natDigits n).map (charVal ∘ digitChar) = (natDigits n).map id :=
    List.map_congr_left (fun d hd => charVal_digitChar d (natDigits_lt n d hd))
  rw [hmap, List.map_id, ofDigits_natDigits]

/-- Every character of `encNat n` is a digit or the terminator `z`;
in particular it is never the `.` separator. -/
theorem encNat_ne_dot (n : Nat) : ∀ c ∈ encNat n, c ≠ '.' := by
  intro c hc
  rcases List.mem_append.1 hc with h | h
  · rcases List.mem_map.1 h with ⟨d, hd, rfl⟩
    exact digitChar_ne_dot d (natDigits_lt n d hd)
  · simp only [List.mem_singleton] at h
    subst h
    decide

/-- A character list as a self-delimiting run: its length, then each
codepoint as a self-delimiting number. -/
def encChars (cs : List Char) : List Char :=
  encNat cs.length ++ (cs.map (fun c => encNat c.toNat)).flatten

/-- Decode exactly `n` codepoints. -/
def decCharsN : Nat → List Char → Option (List Char × List Char)
  | 0, l => some ([], l)
  | n + 1, l =>
    match decNat l with
    | none => none
    | some (v, r) =>
      match decCharsN n r with
      | none => none
      | some (cs, r2) => some (Char.ofNat v :: cs, r2)

/-- Decode one self-delimiting character list. -/
def decChars (l : List Char) : Option (List Char × List Char) :=
  match decNat l with
  | none => none
  | some (n, r) => decCharsN n r

theorem decCharsN_enc (cs rest : List Char) :
    decCharsN cs.length ((cs.map (fun c => encNat c.toNat)).flatten ++ rest) =
      some (cs, rest) := by
  induction cs with
  | nil => simp [decCharsN]
  | cons c cs ih =>
    simp only [List.map_cons, List.flatten_cons, List.length_cons, decCharsN,
      List.append_assoc, decNat_encNat, ih, Char.ofNat_toNat]

theorem decChars_encChars (cs rest : List Char) :
    decChars (encChars cs ++ rest) = some (cs, rest) := by
  simp only [decChars, encChars, List.append_assoc, decNat_encNat]
  exact decCharsN_enc cs rest

theorem encChars_ne_dot (cs : List Char) : ∀ c ∈ encChars cs, c ≠ '.' := by
  intro c hc
  rcases List.mem_append.1 hc with h | h
  · exact encNat_ne_dot _ c h
  · rcases List.mem_flatten.1 h with ⟨run, hrun, hcr⟩
    rcases List.mem_map.1 hrun with ⟨x, _, rfl⟩
    exact encNat_ne_dot _ c hcr

/-! ## The JSON value codec (trusted serializer, modelled concretely) -/

mutual
/-- Modelled from the spec: the JSON serializer (a trusted collaborator whose
source is not part of this repository) rendering a `Json` value to text,
modelled as an injective tagged encoding. -/
def encJson : Json → List Char
  | .null => encNat 0
  | .bool b => encNat 1 ++ encNat (cond b 1 0)
  | .num (Int.ofNat m) => encNat 2 ++ (encNat 0 ++ encNat m)
  | .num (Int.negSucc m) => encNat 2 ++ (encNat 1 ++ encNat m)
  | .str s => encNat 3 ++ encChars s.data
  | .arr es => encNat 4 ++ encJsonList es
  | .obj fs => encNat 5 ++ encJsonFields fs

/-- Encoding of a list of JSON values as a marker stream. -/
def encJsonList : List Json → List Char
  | [] => encNat 0
  | j :: js => encNat 1 ++ (encJson j ++ encJsonList js)

/-- Encoding of a list of key/value fields as a marker stream. -/
def encJsonFields : List (String × Json) → List Char
  | [] => encNat 0
  | kv :: fs => encNat 1 ++ (encChars kv.1.data ++ (encJson kv.2 ++ encJsonFields fs))
end

mutual
/-- Nesting weight of a JSON value, used as decoder fuel. -/
def jweight : Json → Nat
  | .null => 0
  | .bool _ => 0
  | .num _ => 0
  | .str _ => 0
  | .arr es => lweight es + 1
  | .obj fs => fweight fs + 1

/-- Nesting weight of a list of JSON values. -/
def lweight : List Json → Nat
  | [] => 0
  | j :: js => max (jweight j) (lweight js) + 1

/-- Nesting weight of a list of fields. -/
def fweight : List (String × Json) → Nat
  | [] => 0
  | kv :: fs => max (jweight kv.2) (fweight fs) + 1
end

mutual
/-- Modelled from the spec: the JSON deserializer (trusted collaborator),
as a fuel-indexed total decoder inverse to `encJson`. -/
def decJson : Nat → List Char → Option (Json × List Char)
  | 0, _ => none
  | fuel + 1, l =>
    match decNat l with
    | none => none
    | some (0, r) => some (.null, r)
    | some (1, r) =>
      match decNat r with
      | none => none
      | some (0, r2) => some (.bool false, r2)
      | some (1, r2) => some (.bool true, r2)
      | some _ => none
    | some (2, r) =>
      match decNat r with
      | none => none
      | some (0, r2) =>
        match decNat r2 with
        | none => none
        | some (m, r3) => some (.num (Int.ofNat m), r3)
      | some (1, r2) =>
        match decNat r2 with
        | none => none
        | some (m, r3) => some (.num (Int.negSucc m), r3)
      | some _ => none
    | some (3, r) =>
      match decChars r with
      | none => none
      | some (cs, r2) => some (.str (String.mk cs), r2)
    | some (4, r) =>
      match decJsonList fuel r with
      | none => none
      | some (es, r2) => some (.arr es, r2)
    | some (5, r) =>
      match decJsonFields fuel r with
      | none => none
      | some (fs, r2) => some (.obj fs, r2)
    | some _ => none

/-- Decoder for marker-stream lists of JSON values. -/
def decJsonList : Nat → List Char → Option (List Json × List Char)
  | 0, _ => none
  | fuel + 1, l =>
    match decNat l with
    | none => none
    | some (0, r) => some ([], r)
    | some (1, r) =>
      match decJson fuel r with
      | none => none
      | some (j, r2) =>
        match decJsonList fuel r2 with
        | none => none
        | some (js, r3) => some (j :: js, r3)
    | some _ => none

/-- Decoder for marker-stream lists of fields. -/
def decJsonFields : Nat → List Char → Option (List (String × Json) × List Char)
  | 0, _ => none
  | fuel + 1, l =>
    match decNat l with
    | none => none
    | some (0, r) => some ([], r)
    | some (1, r) =>
      match decChars r with
      | none => none
      | some (cs, r2) =>
        match decJson fuel r2 with
        | none => none
        | some (v, r3) =>
          match decJsonFields fuel r3 with
          | none => none
          | some (fs, r4) => some ((String.mk cs, v) :: fs, r4)
    | some _ => none
end

theorem decJson_round (fuel : Nat) :
    (∀ j rest, jweight j < fuel →
      decJson fuel (encJson j ++ rest) = some (j, rest)) ∧
    (∀ es rest, lweight es < fuel →
      decJsonList fuel (encJsonList es ++ rest) = some (es, rest)) ∧
    (∀ fs rest, fweight fs < fuel →
      decJsonFields fuel (encJsonFields fs ++ rest) = some (fs, rest)) := by
  induction fuel with
  | zero =>
    exact ⟨fun j rest h => absurd h (Nat.not_lt_zero _),
      fun es rest h => absurd h (Nat.not_lt_zero _),
      fun fs rest h => absurd h (Nat.not_lt_zero _)⟩
  | succ k ih =>
    obtain ⟨ihj, ihl, ihf⟩ := ih
    refine ⟨?_, ?_, ?_⟩
    · intro j rest h
      cases j with
      | null => simp [encJson, decJson, decNat_encNat]
      | bool b =>
        cases b <;> simp [encJson, decJson, List.append_assoc, decNat_encNat]
      | num n =>
        cases n <;> simp [encJson, decJson, List.append_assoc, decNat_encNat]
      | str s =>
        simp only [encJson, decJson, List.append_assoc, decChars_encChars,
          decNat_encNat]
      | arr es =>
        have hes : lweight es < k := by
          have : jweight (.arr es) = lweight es + 1 := rfl
          omega
        simp only [encJson, decJson, List.append_assoc, decNat_encNat,
          ihl es rest hes]
      | obj fs =>
        have hfs : fweight fs < k := by
          have : jweight (.obj fs) = fweight fs + 1 := rfl
          omega
        simp only [encJson, decJson, List.append_assoc, decNat_encNat,
          ihf fs rest hfs]
    · intro es rest h
      cases es with
      | nil => simp [encJsonList, decJsonList, decNat_encNat]
      | cons j js =>
        have hw : lweight (j :: js) = max (jweight j) (lweight js) + 1 := rfl
        have hj : jweight j < k := by omega
        have hjs : lweight js < k := by omega
        simp only [encJsonList, decJsonList, List.append_assoc, decNat_encNat,
          ihj j _ hj, ihl js rest hjs]
    · intro fs rest h
      cases fs with
      | nil => simp [encJsonFields, decJsonFields, decNat_encNat]
      | cons kv fs' =>
        have hw : fweight (kv :: fs') = max (jweight kv.2) (fweight fs') + 1 := rfl
        have hv : jweight kv.2 < k := by omega
        have hfs : fweight fs' < k := by omega
        simp only [encJsonFields, decJsonFields, List.append_assoc, decNat_encNat,
          decChars_encChars, ihj kv.2 _ hv, ihf fs' rest hfs]

theorem decJson_encJson (j : Json) (rest : List Char) (fuel : Nat)
    (h : jweight j < fuel) : decJson fuel (encJson j ++ rest) = some (j, rest) :=
  (decJson_round fuel).1 j rest h

theorem encJson_inj {a b : Json} (h : encJson a = encJson b) : a = b := by
  have ha := decJson_encJson a [] (max (jweight a) (jweight b) + 1) (by omega)
  have hb := decJson_encJson b [] (max (jweight a) (jweight b) + 1) (by omega)
  rw [h] at ha
  have h2 : ((a, ([] : List Char)) : Json × List Char) = (b, []) :=
    Option.some.inj (ha.symm.trans hb)
  exact congrArg Prod.fst h2

instance : DecidableEq Json := fun a b =>
  decidable_of_iff (encJson a = encJson b) ⟨encJson_inj, fun e => by rw [e]⟩

theorem encJson_ne_dot_aux (fuel : Nat) :
    (∀ j, jweight j < fuel → ∀ c ∈ encJson j, c ≠ '.') ∧
    (∀ es, lweight es < fuel → ∀ c ∈ encJsonList es, c ≠ '.') ∧
    (∀ fs, fweight fs < fuel → ∀ c ∈ encJsonFields fs, c ≠ '.') := by
  induction fuel with
  | zero =>
    exact ⟨fun j h => absurd h (Nat.not_lt_zero _),
      fun es h => absurd h (Nat.not_lt_zero _),
      fun fs h => absurd h (Nat.not_lt_zero _)⟩
  | succ k ih =>
    obtain ⟨ihj, ihl, ihf⟩ := ih
    refine ⟨?_, ?_, ?_⟩
    · intro j hw c hc
      cases j with
      | null => exact encNat_ne_dot _ c hc
      | bool b =>
        rcases List.mem_append.1 hc with h | h
        · exact encNat_ne_dot _ c h
        · exact encNat_ne_dot _ c h
      | num n =>
        cases n <;>
        · rcases List.mem_append.1 hc with h | h
          · exact encNat_ne_dot _ c h
          · rcases List.mem_append.1 h with h2 | h2
            · exact encNat_ne_dot _ c h2
            · exact encNat_ne_dot _ c h2
      | str s =>
        rcases List.mem_append.1 hc with h | h
        · exact encNat_ne_dot _ c h
        · exact encChars_ne_dot _ c h
      | arr es =>
        rcases List.mem_append.1 hc with h | h
        · exact encNat_ne_dot _ c h
        · have hes : lweight es < k := by
            have : jweight (.arr es) = lweight es + 1 := rfl
            omega
          exact ihl es hes c h
      | obj fs =>
        rcases List.mem_append.1 hc with h | h
        · exact encNat_ne_dot _ c h
        · have hfs : fweight fs < k := by
            have : jweight (.obj fs) = fweight fs + 1 := rfl
            omega
          exact ihf fs hfs c h
    · intro es hw c hc
      cases es with
      | nil => exact encNat_ne_dot _ c hc
      | cons j js =>
        have hlw : lweight (j :: js) = max (jweight j) (lweight js) + 1 := rfl
        rcases List.mem_append.1 hc with h | h
        · exact encNat_ne_dot _ c h
        · rcases List.mem_append.1 h with h2 | h2
          · exact ihj j (by omega) c h2
          · exact ihl js (by omega) c h2
    · intro fs hw c hc
      cases fs with
      | nil => exact encNat_ne_dot _ c hc
      | cons kv fs' =>
        have hfw : fweight (kv :: fs') = max (jweight kv.2) (fweight fs') + 1 := rfl
        rcases List.mem_append.1 hc with h | h
        · exact encNat_ne_dot _ c h
        · rcases List.mem_append.1 h with h2 | h2
          · exact encChars_ne_dot _ c h2
          · rcases List.mem_append.1 h2 with h3 | h3
            · exact ihj kv.2 (by omega) c h3
            · exact ihf fs' (by omega) c h3

theorem encJson_ne_dot (j : Json) : ∀ c ∈ encJson j, c ≠ '.' :=
  (encJson_ne_dot_aux (jweight j + 1)).1 j (Nat.lt_succ_self _)

theorem stringMkData (s : String) : String.mk s.data = s := rfl

/-! ## Token options (`JwtOptions` in `src/lib.rs`) -/

/-- `JwtOptions` from `src/lib.rs`: the signing secret and the token lifetime
in milliseconds (`expires_in : u64`, modelled as `Nat`). -/
structure JwtOptions where
  secret : String
  expires_in : Nat
deriving DecidableEq

/-- The `Default` impl for `JwtOptions` in `src/lib.rs`: secret `"$3creT"`,
lifetime one hour. -/
def JwtOptions.defaultOptions : JwtOptions :=
  { secret := "$3creT", expires_in := 60 * 60 * 1000 }

/-- `JwtOptions::get_days` from `src/lib.rs`. -/
def JwtOptions.get_days (o : JwtOptions) : Nat :=
  o.expires_in / 24 / 60 / 60 / 1000

/-- `JwtOptions::get_hours` from `src/lib.rs`. -/
def JwtOptions.get_hours (o : JwtOptions) : Nat :=
  o.expires_in / 60 / 60 / 1000

/-- `JwtOptions::get_minutes` from `src/lib.rs`. -/
def JwtOptions.get_minutes (o : JwtOptions) : Nat :=
  o.expires_in / 60 / 1000

/-- `JwtOptions::get_seconds` from `src/lib.rs`. -/
def JwtOptions.get_seconds (o : JwtOptions) : Nat :=
  o.expires_in / 1000

/-! ## Structured token parts -/

/-- The JOSE header of a token: declared algorithm and token type. -/
structure JwtHeader where
  alg : String
  typ : String
deriving DecidableEq

/-- Modelled from the spec: the claim set built at issuance (by the external
signing crate's claims constructor, not part of this repository) embeds the
caller's payload as the custom claims block together with an expiration
timestamp (unix seconds). -/
structure JwtClaims where
  expires_at : Nat
  custom : Json
deriving DecidableEq

/-- Modelled from the spec: the HMAC-SHA256 primitive is an excluded,
trusted collaborator; it is modelled as an ideal MAC whose authentication
tag is determined exactly by the key and the signed text. -/
structure HmacSha256Tag where
  key : String
  msg : List Char
deriving DecidableEq

/-- The ideal MAC: `key` is the raw secret, `msg` the signed text. -/
def hmacSha256 (key : String) (msg : List Char) : HmacSha256Tag := ⟨key, msg⟩

/-! ## Segment codecs

Modelled from the spec: each token segment is `base64url(JSON(...))` of a
structured part, produced and consumed by the trusted serializer/codec
collaborators; modelled as concrete injective dot-free encodings. -/

/-- Header segment: `base64url(JSON{alg, typ})`. -/
def encHeaderSeg (h : JwtHeader) : List Char :=
  encChars h.alg.data ++ encChars h.typ.data

/-- Decode a header segment. -/
def decHeaderSeg (l : List Char) : Option JwtHeader :=
  match decChars l with
  | none => none
  | some (a, r) =>
    match decChars r with
    | none => none
    | some (t, r2) =>
      if r2 = [] then some ⟨String.mk a, String.mk t⟩ else none

/-- Claims segment: expiration timestamp, decoder fuel, and the custom
payload JSON. -/
def encClaimsSeg (c : JwtClaims) : List Char :=
  encNat c.expires_at ++ (encNat (jweight c.custom) ++ encJson c.custom)

/-- Decode a claims segment. -/
def decClaimsSeg (l : List Char) : Option JwtClaims :=
  match decNat l with
  | none => none
  | some (e, r) =>
    match decNat r with
    | none => none
    | some (w, r2) =>
      match decJson (w + 1) r2 with
      | none => none
      | some (j, r3) => if r3 = [] then some ⟨e, j⟩ else none

/-- Signature segment: `base64url` of the authentication tag. -/
def encSigSeg (t : HmacSha256Tag) : List Char :=
  encChars t.key.data ++ encChars t.msg

/-- Decode a signature segment. -/
def decSigSeg (l : List Char) : Option HmacSha256Tag :=
  match decChars l with
  | none => none
  | some (k, r) =>
    match decChars r with
    | none => none
    | some (m, r2) =>
      if r2 = [] then some ⟨String.mk k, m⟩ else none

/-! ## The error taxonomy (spec §7)

The repository's `create_jwt` / `verify_jwt` surface failures as
human-readable message strings (`Failed to parse payload: ...`,
`Secret key cannot be empty`, `Failed to verify token: ...`); the model keeps
the spec's typed taxonomy, with the two distinct parse messages of
`create_jwt` as distinct constructors. -/

inductive JwtError where
  /-- `create_jwt`: `Failed to parse payload` — the payload argument cannot
  be deserialized into a JSON value. -/
  | payloadParseError
  /-- `create_jwt`: `Failed to parse options` — the options argument cannot
  be deserialized into a `JwtOptions` record. -/
  | optionsParseError
  /-- Signing-primitive failure at issuance (never raised by the ideal
  collaborator model). -/
  | encodingError
  /-- `verify_jwt`: verification attempted with an empty key. -/
  | emptySecretError
  /-- `verify_jwt`: structural parse failure of the token. -/
  | malformedTokenError
  /-- `verify_jwt`: recomputed signature does not match. -/
  | signatureMismatchError
  /-- `verify_jwt`: header declares an algorithm other than HS256. -/
  | unsupportedAlgorithmError
  /-- `verify_jwt`: current time is at or past the embedded expiration. -/
  | expiredTokenError
deriving DecidableEq

/-! ## The wasm boundary of `create_jwt` -/

/-- A JavaScript value crossing the wasm boundary: either a
JSON-representable value, or a value `serde_wasm_bindgen::from_value`
cannot turn into JSON (a function, `undefined`, ...). -/
inductive JsValue where
  | json (j : Json)
  | nonJson
deriving DecidableEq

/-- `from_value::<Value>` from `create_jwt`: structural JSON extraction
only. -/
def fromValueJson : JsValue → Option Json
  | .json j => some j
  | .nonJson => none

/-- First binding of `key` in an association list of JSON fields. -/
def lookupField : List (String × Json) → String → Option Json
  | [], _ => none
  | (k, v) :: fs, key => if k = key then some v else lookupField fs key

/-- `from_value::<JwtOptions>` from `create_jwt`: the serde-derived
deserializer requires an object carrying a string `secret` field and an
unsigned-integer `expires_in` field; anything else is a parse error. -/
def fromValueOptions : JsValue → Option JwtOptions
  | .json (.obj fs) =>
    match lookupField fs "secret", lookupField fs "expires_in" with
    | some (.str s), some (.num (Int.ofNat m)) => some ⟨s, m⟩
    | _, _ => none
  | _ => none

/-- The options value as it would arrive from JavaScript. -/
def optionsJs (O : JwtOptions) : JsValue :=
  .json (.obj [("secret", .str O.secret), ("expires_in", .num (Int.ofNat O.expires_in))])

/-! ## Issuance (`create_jwt` in `src/lib.rs`) -/

/-- Modelled from the spec: `Claims::with_custom_claims(payload,
Duration::from_hours(h))` of the external signing crate — a claim set whose
expiration is the issuance time plus the whole-hour lifetime (unix
seconds). -/
def claimsWithCustom (payload : Json) (hours : Nat) (now : Nat) : JwtClaims :=
  { expires_at := now + 3600 * hours, custom := payload }

/-- Modelled from the spec: compact three-part serialization — header and
claims segments joined by `.`, then the HMAC-SHA256 tag over exactly that
text (keyed by the raw secret) as the third segment. -/
def signedToken (hd : JwtHeader) (cl : JwtClaims) (key : String) : List Char :=
  encHeaderSeg hd ++ '.' ::
    (encClaimsSeg cl ++ '.' ::
      encSigSeg (hmacSha256 key (encHeaderSeg hd ++ '.' :: encClaimsSeg cl)))

/-- `create_jwt` from `src/lib.rs`: deserialize the payload, deserialize the
options, build the claim set with the whole-hour lifetime
(`Duration::from_hours(options.get_hours())`), and sign it with HMAC-SHA256
keyed by the secret's bytes.  The wall clock is passed explicitly as `now`
(unix seconds). -/
def create_jwt (payload options : JsValue) (now : Nat) : Except JwtError String :=
  match fromValueJson payload with
  | none => .error .payloadParseError
  | some deserialized_payload =>
    match fromValueOptions options with
    | none => .error .optionsParseError
    | some jwt_options =>
      .ok (String.mk (signedToken ⟨"HS256", "JWT"⟩
        (claimsWithCustom deserialized_payload jwt_options.get_hours now)
        jwt_options.secret))

/-- The token `create_jwt` produces once both arguments have parsed. -/
def issueToken (P : Json) (O : JwtOptions) (now : Nat) : String :=
  String.mk (signedToken ⟨"HS256", "JWT"⟩
    (claimsWithCustom P O.get_hours now) O.secret)

/-! ## Verification (`verify_jwt` in `src/lib.rs`) -/

/-- Split a character list at every `.` (like splitting a token string on
the segment separator). -/
def splitOnDot : List Char → List (List Char)
  | [] => [[]]
  | c :: rest =>
    if c = '.' then [] :: splitOnDot rest
    else
      match splitOnDot rest with
      | [] => [[c]]
      | l :: ls => (c :: l) :: ls

/-- `verify_jwt` from `src/lib.rs`.  The empty-secret guard is the
repository's own first step; the remaining pipeline is delegated to the
external signing crate and is modelled from the spec (§4.2), in the spec's
step order: split on `.` into exactly three decodable parts (else
`malformedTokenError`), recompute the HMAC-SHA256 tag over the first two
parts as they appear in the token and compare (else
`signatureMismatchError`), pin the algorithm to HS256 (else
`unsupportedAlgorithmError`), apply the exact expiration cutoff (else
`expiredTokenError`), and finally return only the custom claims. -/
def verify_jwt (token : String) (secret : String) (now : Nat) :
    Except JwtError Json :=
  if secret = "" then .error .emptySecretError
  else
    match splitOnDot token.data with
    | [h, c, s] =>
      match decHeaderSeg h, decClaimsSeg c, decSigSeg s with
      | some header, some claims, some sig =>
        if sig = hmacSha256 secret (h ++ '.' :: c) then
          if header.alg = "HS256" then
            if claims.expires_at ≤ now then .error .expiredTokenError
            else .ok claims.custom
          else .error .unsupportedAlgorithmError
        else .error .signatureMismatchError
      | _, _, _ => .error .malformedTokenError
    | _ => .error .malformedTokenError

/-! ## Observers used to state theorems -/

/-- The decoded claim set embedded in a token. -/
def tokenClaims (token : String) : Option JwtClaims :=
  match splitOnDot token.data with
  | [_, c, _] => decClaimsSeg c
  | _ => none

/-- The decoded header embedded in a token. -/
def tokenHeader (token : String) : Option JwtHeader :=
  match splitOnDot token.data with
  | [h, _, _] => decHeaderSeg h
  | _ => none

/-- Decidable equality of `Except` results, so that concrete runs of the
operations can be evaluated by `decide`. -/
instance {ε α : Type} [DecidableEq ε] [DecidableEq α] :
    DecidableEq (Except ε α) := fun a b =>
  match a, b with
  | .ok x, .ok y =>
    if h : x = y then .isTrue (by rw [h])
    else .isFalse (fun e => h (Except.ok.inj e))
  | .error x, .error y =>
    if h : x = y then .isTrue (by rw [h])
    else .isFalse (fun e => h (Except.error.inj e))
  | .ok _, .error _ => .isFalse (fun e => Except.noConfusion e)
  | .error _, .ok _ => .isFalse (fun e => Except.noConfusion e)

/-! ## Round trips of the segment codecs -/

theorem decChars_encChars_nil (cs : List Char) :
    decChars (encChars cs) = some (cs, []) := by
  have h := decChars_encChars cs []
  rwa [List.append_nil] at h

theorem decHeaderSeg_enc (h : JwtHeader) :
    decHeaderSeg (encHeaderSeg h) = some h := by
  simp only [encHeaderSeg, decHeaderSeg, decChars_encChars, decChars_encChars_nil]
  rfl

theorem decClaimsSeg_enc (c : JwtClaims) :
    decClaimsSeg (encClaimsSeg c) = some c := by
  simp only [encClaimsSeg, decClaimsSeg, decNat_encNat]
  rw [show encJson c.custom = encJson c.custom ++ [] from (List.append_nil _).symm,
    decJson_encJson c.custom [] (jweight c.custom + 1) (Nat.lt_succ_self _)]
  rfl

theorem decSigSeg_enc (t : HmacSha256Tag) :
    decSigSeg (encSigSeg t) = some t := by
  simp only [encSigSeg, decSigSeg, decChars_encChars, decChars_encChars_nil]
  rfl

theorem encHeaderSeg_ne_dot (h : JwtHeader) :
    ∀ c ∈ encHeaderSeg h, c ≠ '.' := by
  intro c hc
  rcases List.mem_append.1 hc with h2 | h2
  · exact encChars_ne_dot _ c h2
  · exact encChars_ne_dot _ c h2

theorem encClaimsSeg_ne_dot (cl : JwtClaims) :
    ∀ c ∈ encClaimsSeg cl, c ≠ '.' := by
  intro c hc
  rcases List.mem_append.1 hc with h2 | h2
  · exact encNat_ne_dot _ c h2
  · rcases List.mem_append.1 h2 with h3 | h3
    · exact encNat_ne_dot _ c h3
    · exact encJson_ne_dot _ c h3

theorem encSigSeg_ne_dot (t : HmacSha256Tag) :
    ∀ c ∈ encSigSeg t, c ≠ '.' := by
  intro c hc
  rcases List.mem_append.1 hc with h2 | h2
  · exact encChars_ne_dot _ c h2
  · exact encChars_ne_dot _ c h2

/-! ## Splitting on the segment separator -/

theorem splitOnDot_no_dot (a : List Char) (h : ∀ c ∈ a, c ≠ '.') :
    splitOnDot a = [a] := by
  induction a with
  | nil => rfl
  | cons c cs ih =>
    have hc : c ≠ '.' := h c (List.mem_cons_self ..)
    simp only [splitOnDot, if_neg hc,
      ih (fun x hx => h x (List.mem_cons_of_mem _ hx))]

theorem splitOnDot_append (a t : List Char) (h : ∀ c ∈ a, c ≠ '.') :
    splitOnDot (a ++ '.' :: t) = a :: splitOnDot t := by
  induction a with
  | nil => simp [splitOnDot]
  | cons c cs ih =>
    have hc : c ≠ '.' := h c (List.mem_cons_self ..)
    simp only [List.cons_append, splitOnDot, if_neg hc, List.append_eq,
      ih (fun x hx => h x (List.mem_cons_of_mem _ hx))]

/-- The three segments of a token built by `signedToken`. -/
theorem splitOnDot_signedToken (hd : JwtHeader) (cl : JwtClaims) (key : String) :
    splitOnDot (signedToken hd cl key) =
      [encHeaderSeg hd, encClaimsSeg cl,
        encSigSeg (hmacSha256 key (encHeaderSeg hd ++ '.' :: encClaimsSeg cl))] := by
  unfold signedToken
  rw [splitOnDot_append _ _ (encHeaderSeg_ne_dot hd),
    splitOnDot_append _ _ (encClaimsSeg_ne_dot cl),
    splitOnDot_no_dot _ (encSigSeg_ne_dot _)]

/-! ## The master lemma: verifying an issued token -/

/-- Evaluating `verify_jwt` on a well-formed signed token: the outcome is
decided, in the spec's step order, by the empty-secret guard, the key
comparison, the algorithm pin, and the expiration cutoff. -/
theorem verify_signedToken (hd : JwtHeader) (cl : JwtClaims) (key s : String)
    (t : Nat) (hs : s ≠ "") :
    verify_jwt (String.mk (signedToken hd cl key)) s t =
      if s = key then
        (if hd.alg = "HS256" then
          (if cl.expires_at ≤ t then .error .expiredTokenError
           else .ok cl.custom)
         else .error .unsupportedAlgorithmError)
      else .error .signatureMismatchError := by
  unfold verify_jwt
  rw [if_neg hs]
  have hdata : (String.mk (signedToken hd cl key)).data = signedToken hd cl key := rfl
  rw [hdata, splitOnDot_signedToken]
  simp only [decHeaderSeg_enc, decClaimsSeg_enc, decSigSeg_enc]
  by_cases hk : s = key
  · subst hk
    rw [if_pos rfl, if_pos rfl]
  · rw [if_neg (fun e => hk ((congrArg HmacSha256Tag.key e).symm)), if_neg hk]

/-- Evaluating `verify_jwt` on the token issued by `create_jwt`. -/
theorem verify_issueToken (P : Json) (O : JwtOptions) (t0 t : Nat) (s : String)
    (hs : s ≠ "") :
    verify_jwt (issueToken P O t0) s t =
      if s = O.secret then
        (if t0 + 3600 * O.get_hours ≤ t then .error .expiredTokenError
         else .ok P)
      else .error .signatureMismatchError := by
  have h := verify_signedToken ⟨"HS256", "JWT"⟩ (claimsWithCustom P O.get_hours t0)
    O.secret s t hs
  rw [issueToken, h]
  simp [claimsWithCustom]

/-- `create_jwt` applied to a parseable payload and options produces
exactly `issueToken`. -/
theorem create_jwt_ok (P : Json) (O : JwtOptions) (now : Nat) :
    create_jwt (.json P) (optionsJs O) now = .ok (issueToken P O now) := by
  simp [create_jwt, fromValueJson, optionsJs, fromValueOptions, lookupField,
    issueToken]

/-- Whenever verification succeeds, the token's header decodes and declares
exactly HS256. -/
theorem verify_ok_header (token secret : String) (now : Nat) (j : Json)
    (h : verify_jwt token secret now = .ok j) :
    ∃ hd, tokenHeader token = some hd ∧ hd.alg = "HS256" := by
  unfold verify_jwt at h
  by_cases hs : secret = ""
  · rw [if_pos hs] at h
    exact absurd h (by simp)
  · rw [if_neg hs] at h
    unfold tokenHeader
    split at h
    next a b c heq =>
      split at h
      next hd cl sig hh hc hsg =>
        split at h
        · split at h
          next halg =>
            split at h
            · exact absurd h (by simp)
            · exact ⟨hd, hh, halg⟩
          next => exact absurd h (by simp)
        · exact absurd h (by simp)
      next => exact absurd h (by simp)
    next => exact absurd h (by simp)

/-! ## The claims -/

/-- Claim C1: for every JSON payload `P` and options `O` with a non-empty
secret, verifying the token produced by issuing `P` under `O` with the
matching secret `O.secret`, within the validity window (within `O.get_hours`
hours of issuance), succeeds and returns a payload deep-equal to `P`. -/
theorem claim_C1_roundtrip (P : Json) (O : JwtOptions) (t0 t : Nat)
    (hsec : O.secret ≠ "") (ht : t < t0 + 3600 * O.get_hours) :
    create_jwt (.json P) (optionsJs O) t0 = .ok (issueToken P O t0) ∧
    verify_jwt (issueToken P O t0) O.secret t = .ok P := by
  refine ⟨create_jwt_ok P O t0, ?_⟩
  rw [verify_issueToken P O t0 t O.secret hsec, if_pos rfl, if_neg (by omega)]

/-- Witness for C1: concrete round trip of `{"user_id": 42}` under secret
`s3cr3t` and a one-hour lifetime, verified 100 seconds after issuance. -/
theorem claim_C1_roundtrip_witness :
    (JwtOptions.mk "s3cr3t" 3600000).secret ≠ "" ∧
    100 < 0 + 3600 * (JwtOptions.mk "s3cr3t" 3600000).get_hours ∧
    (create_jwt (.json (.obj [("user_id", .num 42)]))
        (optionsJs ⟨"s3cr3t", 3600000⟩) 0 =
      .ok (issueToken (.obj [("user_id", .num 42)]) ⟨"s3cr3t", 3600000⟩ 0) ∧
    verify_jwt (issueToken (.obj [("user_id", .num 42)]) ⟨"s3cr3t", 3600000⟩ 0)
        "s3cr3t" 100 =
      .ok (.obj [("user_id", .num 42)])) :=
  ⟨by decide, by decide,
    claim_C1_roundtrip (.obj [("user_id", .num 42)]) ⟨"s3cr3t", 3600000⟩ 0 100
      (by decide) (by decide)⟩

/-- Claim C2: the verifier applies an exact expiration cutoff — verifying an
issued token with the matching non-empty secret fails with
`expiredTokenError` whenever the current time is at or past the embedded
expiration timestamp; in particular a token issued with a whole-hour
lifetime of zero fails at any time at or after issuance. -/
theorem claim_C2_exact_expiry (P : Json) (O : JwtOptions) (t0 t : Nat)
    (hsec : O.secret ≠ "") :
    (t0 + 3600 * O.get_hours ≤ t →
      verify_jwt (issueToken P O t0) O.secret t = .error .expiredTokenError) ∧
    (O.get_hours = 0 → t0 ≤ t →
      verify_jwt (issueToken P O t0) O.secret t = .error .expiredTokenError) := by
  constructor
  · intro ht
    rw [verify_issueToken P O t0 t O.secret hsec, if_pos rfl, if_pos ht]
  · intro h0 ht
    rw [verify_issueToken P O t0 t O.secret hsec, if_pos rfl,
      if_pos (by omega)]

/-- Witness for C2: a token issued with lifetime `0` ms (zero whole hours)
is already expired at its own issuance instant. -/
theorem claim_C2_exact_expiry_witness :
    (JwtOptions.mk "s3cr3t" 0).secret ≠ "" ∧
    verify_jwt (issueToken (.num 7) ⟨"s3cr3t", 0⟩ 5) "s3cr3t" 5 =
      .error .expiredTokenError :=
  ⟨by decide,
    (claim_C2_exact_expiry (.num 7) ⟨"s3cr3t", 0⟩ 5 5 (by decide)).2
      (by decide) (by decide)⟩

/-- Claim C3: for every token string whatsoever, verifying with the empty
secret fails with `emptySecretError`; `create_jwt`, by contrast, performs no
secret validation and signs successfully even when the configured secret is
the empty string. -/
theorem claim_C3_empty_secret (token : String) (now : Nat) (P : Json)
    (O : JwtOptions) (t0 lifetime : Nat) :
    verify_jwt token "" now = .error .emptySecretError ∧
    create_jwt (.json P) (optionsJs O) t0 = .ok (issueToken P O t0) ∧
    create_jwt (.json P) (optionsJs ⟨"", lifetime⟩) t0 =
      .ok (issueToken P ⟨"", lifetime⟩ t0) :=
  ⟨rfl, create_jwt_ok P O t0, create_jwt_ok P ⟨"", lifetime⟩ t0⟩

/-- Claim C4: the expiration embedded in an issued token is the issuance
time plus `lifetime_ms / 3600000` whole hours (floor division): the
millisecond lifetime is narrowed to whole hours and any sub-hour remainder
is dropped. -/
theorem claim_C4_hour_truncation (P : Json) (O : JwtOptions) (t0 : Nat) :
    tokenClaims (issueToken P O t0) =
      some ⟨t0 + 3600 * (O.expires_in / 3600000), P⟩ := by
  unfold tokenClaims issueToken
  have hdata : (String.mk (signedToken ⟨"HS256", "JWT"⟩
      (claimsWithCustom P O.get_hours t0) O.secret)).data =
      signedToken ⟨"HS256", "JWT"⟩ (claimsWithCustom P O.get_hours t0)
        O.secret := rfl
  rw [hdata, splitOnDot_signedToken]
  simp only [decClaimsSeg_enc]
  have hh : O.get_hours = O.expires_in / 3600000 := by
    unfold JwtOptions.get_hours
    rw [Nat.div_div_eq_div_mul, Nat.div_div_eq_div_mul]
  rw [claimsWithCustom, hh]

/-- Counterexample to C5 as stated: the empty string differs from the
issuing secret, yet verification with it fails with `emptySecretError`
(the empty-secret guard fires first), not `signatureMismatchError`. -/
theorem claim_C5_counterexample :
    "" ≠ (JwtOptions.mk "s3cr3t" 3600000).secret ∧
    verify_jwt (issueToken (.num 7) ⟨"s3cr3t", 3600000⟩ 0) "" 10 ≠
      .error .signatureMismatchError ∧
    verify_jwt (issueToken (.num 7) ⟨"s3cr3t", 3600000⟩ 0) "" 10 =
      .error .emptySecretError :=
  ⟨by decide, by decide, rfl⟩

/-- Claim C5 (amended): verifying an issued token with any secret different
from the issuing secret fails — with `signatureMismatchError` whenever the
verifying secret is non-empty, and with `emptySecretError` when it is the
empty string. -/
theorem claim_C5_wrong_key (P : Json) (O : JwtOptions) (t0 t : Nat)
    (s2 : String) (hne : s2 ≠ O.secret) :
    verify_jwt (issueToken P O t0) s2 t =
      (if s2 = "" then .error .emptySecretError
       else .error .signatureMismatchError) := by
  by_cases h0 : s2 = ""
  · subst h0
    rw [if_pos rfl]
    rfl
  · rw [if_neg h0, verify_issueToken P O t0 t s2 h0, if_neg hne]

/-- Witness for C5 (amended): verifying with the non-empty wrong secret
`wrong` yields `signatureMismatchError`. -/
theorem claim_C5_wrong_key_witness :
    ("wrong" ≠ (JwtOptions.mk "s3cr3t" 3600000).secret) ∧
    verify_jwt (issueToken (.num 7) ⟨"s3cr3t", 3600000⟩ 0) "wrong" 10 =
      (if "wrong" = "" then .error .emptySecretError
       else .error .signatureMismatchError) :=
  ⟨by decide,
    claim_C5_wrong_key (.num 7) ⟨"s3cr3t", 3600000⟩ 0 10 "wrong" (by decide)⟩

set_option maxRecDepth 200000 in
/-- Counterexample to C6 as stated: a token whose header declares algorithm
`none` but whose signature does not match under the verifying secret fails
with `signatureMismatchError` (the signature comparison precedes the
algorithm check in the spec's pipeline), not `unsupportedAlgorithmError`. -/
theorem claim_C6_counterexample :
    tokenHeader
        (String.mk (signedToken ⟨"none", "JWT"⟩ ⟨1000, .num 1⟩ "otherkey")) =
      some ⟨"none", "JWT"⟩ ∧
    verify_jwt
        (String.mk (signedToken ⟨"none", "JWT"⟩ ⟨1000, .num 1⟩ "otherkey"))
        "s" 0 ≠
      .error .unsupportedAlgorithmError ∧
    verify_jwt
        (String.mk (signedToken ⟨"none", "JWT"⟩ ⟨1000, .num 1⟩ "otherkey"))
        "s" 0 =
      .error .signatureMismatchError := by
  refine ⟨?_, ?_, ?_⟩ <;> decide

/-- Claim C6 (amended): the verifier accepts exactly one algorithm — a
structurally valid token whose header declares anything other than HS256 is
rejected with `unsupportedAlgorithmError` when its signature matches under
the verifying secret and with `signatureMismatchError` otherwise; and no
token whose header declares a different algorithm ever verifies
successfully. -/
theorem claim_C6_algorithm_pinning (hd : JwtHeader) (cl : JwtClaims)
    (key s : String) (t : Nat) (hs : s ≠ "") (halg : hd.alg ≠ "HS256") :
    (verify_jwt (String.mk (signedToken hd cl key)) s t =
      (if s = key then .error .unsupportedAlgorithmError
       else .error .signatureMismatchError)) ∧
    ∀ (token secret : String) (now : Nat) (h : JwtHeader),
      tokenHeader token = some h → h.alg ≠ "HS256" →
      ∀ j : Json, verify_jwt token secret now ≠ .ok j := by
  constructor
  · rw [verify_signedToken hd cl key s t hs]
    by_cases hk : s = key
    · rw [if_pos hk, if_pos hk, if_neg halg]
    · rw [if_neg hk, if_neg hk]
  · intro token secret now h htok halg2 j hok
    rcases verify_ok_header token secret now j hok with ⟨hd2, hhd2, halg3⟩
    rw [htok] at hhd2
    exact halg2 (Option.some.inj hhd2 ▸ halg3)

/-- Witness for C6 (amended): a well-signed token declaring algorithm
`none` is rejected with `unsupportedAlgorithmError`. -/
theorem claim_C6_algorithm_pinning_witness :
    ("s" : String) ≠ "" ∧
    (JwtHeader.mk "none" "JWT").alg ≠ "HS256" ∧
    verify_jwt (String.mk (signedToken ⟨"none", "JWT"⟩ ⟨1000, .num 1⟩ "s"))
        "s" 0 =
      (if ("s" : String) = "s" then .error .unsupportedAlgorithmError
       else .error .signatureMismatchError) :=
  ⟨by decide, by decide,
    (claim_C6_algorithm_pinning ⟨"none", "JWT"⟩ ⟨1000, .num 1⟩ "s" "s" 0
      (by decide) (by decide)).1⟩

/-- Claim C7: the derived accessors of `JwtOptions` are total pure functions
equal to floor division of the millisecond lifetime: days, hours, minutes
and seconds. -/
theorem claim_C7_accessors (o : JwtOptions) :
    o.get_days = o.expires_in / 86400000 ∧
    o.get_hours = o.expires_in / 3600000 ∧
    o.get_minutes = o.expires_in / 60000 ∧
    o.get_seconds = o.expires_in / 1000 := by
  refine ⟨?_, ?_, ?_, rfl⟩
  · simp only [JwtOptions.get_days]
    omega
  · simp only [JwtOptions.get_hours]
    omega
  · simp only [JwtOptions.get_minutes]
    omega

/-- Claim C8: issuance accepts any JSON-representable payload — object,
array or scalar alike — and succeeds regardless of the payload's shape. -/
theorem claim_C8_any_payload (P : Json) (O : JwtOptions) (now : Nat) :
    create_jwt (.json P) (optionsJs O) now = .ok (issueToken P O now) :=
  create_jwt_ok P O now

/-- Claim C10: an options argument that does not deserialize into a
`JwtOptions` record makes `create_jwt` return the options-parse error
(rather than signing with defaults), and a payload argument that does not
deserialize into JSON makes it return the payload-parse error. -/
theorem claim_C10_parse_errors (p v : JsValue) (now : Nat) :
    (∀ j, fromValueJson p = some j → fromValueOptions v = none →
      create_jwt p v now = .error .optionsParseError) ∧
    (fromValueJson p = none → create_jwt p v now = .error .payloadParseError) := by
  constructor
  · intro j hj hv
    simp only [create_jwt, hj, hv]
  · intro hp
    simp only [create_jwt, hp]

/-- Witness for C10: options lacking the `secret` field yield the
options-parse error; a non-JSON payload yields the payload-parse error. -/
theorem claim_C10_parse_errors_witness :
    create_jwt (.json (.num 1)) (.json (.obj [("expires_in", .num 3600000)])) 0 =
      .error .optionsParseError ∧
    create_jwt .nonJson (optionsJs ⟨"s", 1⟩) 0 = .error .payloadParseError :=
  ⟨(claim_C10_parse_errors (.json (.num 1))
      (.json (.obj [("expires_in", .num 3600000)])) 0).1 (.num 1) rfl (by decide),
    (claim_C10_parse_errors .nonJson (optionsJs ⟨"s", 1⟩) 0).2 rfl⟩

end JwtEasy
